import Mathlib

/-!
Verification of the in-memory diary backend (`src/index.js`).

Shallow embedding of the Express handlers in `src/index.js`:

* JavaScript request-body values are modelled by `JSVal` (undefined, null,
  booleans, numbers, strings, arrays).  Strings are Lean `String`s; the
  JS string builtins used by the code (`trim`, `split(",")`,
  `toLowerCase`) are re-implemented over the character list.  `trim` uses
  `Char.isWhitespace` (space, tab, CR, LF); the wider JS Unicode
  whitespace set is immaterial to the properties proved here, and
  `toLowerCase` lowers ASCII letters, which is all the code relies on.
* The three process-wide `Map`s (`membersByEmail`, `loginState`,
  `diaryByDate`) become association lists in insertion order, with
  `get`/`has`/`set` mirroring JS `Map` semantics (`set` overwrites the
  first binding in place, otherwise appends).
* Each route handler becomes a pure function from the application state
  and the request data to the new state paired with the response.
  `Array.prototype.sort()` with the default comparator on the
  all-ASCII date keys is modelled by insertion sort with `≤` on `String`
  (lexicographic), which agrees with the JS code-unit order on ASCII.
-/

namespace DiaryBackend

/-- A JavaScript value as it can appear in a JSON request body. -/
inductive JSVal where
  | undef
  | null
  | bool (b : Bool)
  | num (n : Int)
  | str (s : String)
  | arr (elems : List JSVal)
deriving Repr

/-- Characters removed by `String.prototype.trim` (ASCII whitespace). -/
def jsWs (c : Char) : Bool := c.isWhitespace

/-- Drop trailing whitespace from a character list. -/
def trimRight (l : List Char) : List Char :=
  (l.reverse.dropWhile jsWs).reverse

/-- `trim` on a character list: drop leading then trailing whitespace. -/
def jsTrimData (l : List Char) : List Char :=
  trimRight (l.dropWhile jsWs)

/-- Embedding of `String.prototype.trim`. -/
def jsTrim (s : String) : String := ⟨jsTrimData s.data⟩

/-- Embedding of `isValidString` from `index.js` on an actual string:
`s.trim().length > 0`. -/
def isValidStringS (s : String) : Bool := decide ((jsTrim s).length > 0)

/-- Embedding of `isValidString(v)`:
`typeof v === "string" && v.trim().length > 0`. -/
def isValidString : JSVal → Bool
  | .str s => isValidStringS s
  | _ => false

/-- The regular expression `^\d{4}-\d{2}-\d{2}$` from `normalizeDate`. -/
def datePat (s : String) : Bool :=
  match s.data with
  | [a, b, c, d, e, f, g, h, i, j] =>
      a.isDigit && b.isDigit && c.isDigit && d.isDigit && (e == '-') &&
      f.isDigit && g.isDigit && (h == '-') && i.isDigit && j.isDigit
  | _ => false

/-- Embedding of `normalizeDate` from `index.js`; the JS `null` sentinel
for an invalid date becomes `none`. -/
def normalizeDate (v : JSVal) : Option String :=
  if isValidString v then
    match v with
    | .str s =>
        let t := jsTrim s
        if datePat t then some t else none
    | _ => none
  else none

/-- Helper for `String.prototype.split(",")`: walk the characters,
cutting at every comma (`acc` holds the current piece reversed). -/
def splitCommaAux : List Char → List Char → List String
  | [], acc => [⟨acc.reverse⟩]
  | c :: rest, acc =>
      if c == ',' then ⟨acc.reverse⟩ :: splitCommaAux rest []
      else splitCommaAux rest (c :: acc)

/-- Embedding of `String.prototype.split(",")` (so `"" ↦ [""]`,
`"," ↦ ["", ""]`, like in JS). -/
def jsSplitComma (s : String) : List String := splitCommaAux s.data []

/-- Embedding of `normalizeTodo` from `index.js`. -/
def normalizeTodo : JSVal → List String
  | .arr xs =>
      (xs.map (fun x => match x with | .str s => jsTrim s | _ => "")).filter
        (fun s => decide (s.length > 0))
  | .str s =>
      ((jsSplitComma s).map jsTrim).filter (fun s => decide (s.length > 0))
  | _ => []

/-- Embedding of `String.prototype.toLowerCase` (ASCII letters). -/
def jsToLower (s : String) : String := ⟨s.data.map Char.toLower⟩

/-- A diary entry as stored in `diaryByDate`:
`{ todo: [...], contents: string, thanks: string }`. -/
structure Entry where
  todo : List String
  contents : String
  thanks : String
deriving Repr, DecidableEq

/-- The default entry `{ todo: [], contents: "", thanks: "" }`. -/
def emptyEntry : Entry := ⟨[], "", ""⟩

/-- A member record as stored in `membersByEmail`. -/
structure Member where
  memberId : Nat
  name : String
  email : String
  password : String
deriving Repr, DecidableEq

/-- `Map.prototype.get` on an association list in insertion order
(`undefined` for a missing key becomes `none`). -/
def alGet {β : Type} : List (String × β) → String → Option β
  | [], _ => none
  | p :: rest, k => if p.1 = k then some p.2 else alGet rest k

/-- `Map.prototype.has`. -/
def alHas {β : Type} (l : List (String × β)) (k : String) : Bool :=
  (alGet l k).isSome

/-- `Map.prototype.set`: overwrite the binding in place if the key is
present (a JS `Map` never holds a key twice), append otherwise. -/
def alSet {β : Type} : List (String × β) → String → β → List (String × β)
  | [], k, v => [(k, v)]
  | p :: rest, k, v =>
      if p.1 = k then (k, v) :: rest else p :: alSet rest k v

/-- The whole mutable state of the process: `nextMemberId`,
`membersByEmail`, `loginState` (0/1 as in the code) and `diaryByDate`. -/
structure AppState where
  nextMemberId : Nat
  membersByEmail : List (String × Member)
  loginState : List (String × Nat)
  diaryByDate : List (String × Entry)
deriving Repr, DecidableEq

/-- The state at process start. -/
def st0 : AppState := ⟨1, [], [], []⟩

/-- The `{todo, contents, thanks}` fields destructured from `req.body`
by the diary handlers; an absent field is `undefined`. -/
structure DiaryBody where
  todo : JSVal
  contents : JSVal
  thanks : JSVal
deriving Repr

/-- `v === undefined`. -/
def isUndef : JSVal → Bool
  | .undef => true
  | _ => false

/-- `contents.trim()` as used after an `isValidString` check (only ever
evaluated on strings). -/
def jsvalTrim : JSVal → String
  | .str s => jsTrim s
  | _ => ""

/-- The per-field text normalization of the diary handlers:
`isValidString(v) ? v.trim() : ""`. -/
def normTextField (v : JSVal) : String :=
  if isValidString v then jsvalTrim v else ""

/-- The entry built by `POST /diary/:date` from the raw body. -/
def mkEntryReplace (b : DiaryBody) : Entry :=
  { todo := normalizeTodo b.todo
    contents := normTextField b.contents
    thanks := normTextField b.thanks }

/-- The merged entry built by `PUT /diary/:date`:
`field === undefined ? prev.field : normalize(field)`. -/
def mergeEntry (prev : Entry) (b : DiaryBody) : Entry :=
  { todo := if isUndef b.todo then prev.todo else normalizeTodo b.todo
    contents :=
      if isUndef b.contents then prev.contents else normTextField b.contents
    thanks := if isUndef b.thanks then prev.thanks else normTextField b.thanks }

/-- Response of `POST`/`PUT /diary/:date`: 400 on an invalid date, else
200 with the two presence flags. -/
inductive DiaryWriteResp where
  | invalidDate
  | ok (haveContents : Bool) (haveTodos : Bool)
deriving Repr, DecidableEq

/-- Response of `GET /diary/:date`: 400 on an invalid date, else 200
with the entry. -/
inductive DiaryReadResp where
  | invalidDate
  | ok (entry : Entry)
deriving Repr, DecidableEq

/-- Handler of `POST /diary/:date` (upsert-replace). -/
def postDiary (st : AppState) (dateParam : String) (b : DiaryBody) :
    AppState × DiaryWriteResp :=
  match normalizeDate (.str dateParam) with
  | none => (st, .invalidDate)
  | some date =>
      let entry := mkEntryReplace b
      ({ st with diaryByDate := alSet st.diaryByDate date entry },
       .ok (isValidStringS entry.contents) (decide (entry.todo.length > 0)))

/-- Handler of `GET /diary/:date` (read; `get(date) || defaultEntry`,
and an entry object is always truthy). -/
def getDiary (st : AppState) (dateParam : String) :
    AppState × DiaryReadResp :=
  match normalizeDate (.str dateParam) with
  | none => (st, .invalidDate)
  | some date => (st, .ok ((alGet st.diaryByDate date).getD emptyEntry))

/-- Handler of `PUT /diary/:date` (upsert-merge). -/
def putDiary (st : AppState) (dateParam : String) (b : DiaryBody) :
    AppState × DiaryWriteResp :=
  match normalizeDate (.str dateParam) with
  | none => (st, .invalidDate)
  | some date =>
      let prev := (alGet st.diaryByDate date).getD emptyEntry
      let updated := mergeEntry prev b
      ({ st with diaryByDate := alSet st.diaryByDate date updated },
       .ok (isValidStringS updated.contents)
         (decide (updated.todo.length > 0)))

/-- `getHaveArrays` from `index.js`: scan the diary map in insertion
order, collect the date keys with non-empty contents resp. non-empty
todo list, and sort each array (default JS sort = lexicographic on
these ASCII strings; the model uses a stable insertion sort with `≤`). -/
def getHaveArrays (diary : List (String × Entry)) :
    List String × List String :=
  let haveContents :=
    (diary.filter (fun q => isValidStringS q.2.contents)).map Prod.fst
  let haveTodos :=
    (diary.filter (fun q => decide (q.2.todo.length > 0))).map Prod.fst
  (List.insertionSort (· ≤ ·) haveContents,
   List.insertionSort (· ≤ ·) haveTodos)

/-- The `{email, name, password}` fields destructured from the
`POST /SignUp` body. -/
structure SignUpBody where
  email : JSVal
  name : JSVal
  password : JSVal
deriving Repr

/-- Response of `POST /SignUp`. -/
inductive SignUpResp where
  | missingFields
  | emailExists
  | ok (memberId : Nat) (name : String) (email : String)
deriving Repr, DecidableEq

/-- Extract the underlying string of a `JSVal` known to be a string. -/
def asString : JSVal → String
  | .str s => s
  | _ => ""

/-- `email.trim().toLowerCase()`: the key of the account maps. -/
def emailKeyOf (email : String) : String := jsToLower (jsTrim email)

/-- Handler of `POST /SignUp`. -/
def signUp (st : AppState) (b : SignUpBody) : AppState × SignUpResp :=
  if isValidString b.email && isValidString b.name &&
      isValidString b.password then
    let key := emailKeyOf (asString b.email)
    if alHas st.membersByEmail key then (st, .emailExists)
    else
      let member : Member :=
        { memberId := st.nextMemberId
          name := jsTrim (asString b.name)
          email := key
          password := asString b.password }
      ({ st with
          nextMemberId := st.nextMemberId + 1
          membersByEmail := alSet st.membersByEmail key member
          loginState := alSet st.loginState key 0 },
       .ok member.memberId member.name member.email)
  else (st, .missingFields)

/-- The invariant every entry stored by the handlers satisfies: both
text fields are already trimmed, and the todo list holds trimmed
non-empty strings. -/
def wfEntry (e : Entry) : Prop :=
  jsTrim e.contents = e.contents ∧ jsTrim e.thanks = e.thanks ∧
  ∀ t ∈ e.todo, jsTrim t = t ∧ t ≠ ""

/-- Sample diary body (the scenario from the spec). -/
def bodyA : DiaryBody := ⟨.str "a, b ,,c", .str " hi ", .str ""⟩

/-- A diary body with all three fields absent. -/
def bodyU : DiaryBody := ⟨.undef, .undef, .undef⟩

/-- A diary body with all three fields of non-string type. -/
def bodyN : DiaryBody := ⟨.num 1, .null, .bool true⟩

/-- A merge body providing only `contents`. -/
def bodyC : DiaryBody := ⟨.undef, .str " new text ", .undef⟩

/-- Sample sign-up bodies that share an email key up to case. -/
def bodyS : SignUpBody := ⟨.str "A@B.com ", .str " Ann ", .str "pw"⟩

/-- Second registration attempt for the same email in different case. -/
def bodyS2 : SignUpBody := ⟨.str "a@b.COM", .str "Bob", .str "x"⟩

/-- A state with one stored diary entry. -/
def stA : AppState := ⟨1, [], [], [("2024-05-01", ⟨["a"], "hi", "t"⟩)]⟩

/-- A state with one registered member. -/
def stSigned : AppState :=
  ⟨2, [("a@b.com", ⟨1, "n", "a@b.com", "p"⟩)], [("a@b.com", 0)], []⟩

/-- A sample diary store for the summary claim. -/
def dW : List (String × Entry) :=
  [("2024-05-03", ⟨[], "x", ""⟩), ("2024-05-01", ⟨["t"], "", ""⟩),
   ("2024-05-02", ⟨[], "", ""⟩)]

/-! ## Sanity checks against the spec scenarios -/

example : normalizeTodo (.str "a, b ,,c") = ["a", "b", "c"] := by decide
example : normalizeTodo (.arr [.str " x ", .num 3, .str "  "]) = ["x"] := by decide
example : normalizeDate (.str " 2024-05-01 ") = some "2024-05-01" := by decide
example : normalizeDate (.str "2024-13-99") = some "2024-13-99" := by decide
example : normalizeDate (.str "not-a-date") = none := by decide
example : normalizeDate (.num 20240501) = none := by decide
example : (postDiary st0 "2024-05-01" bodyA).2 = .ok true true := by decide
example :
    (getDiary (postDiary st0 "2024-05-01" bodyA).1 "2024-05-01").2
      = .ok ⟨["a", "b", "c"], "hi", ""⟩ := by decide
example :
    getHaveArrays [("2024-05-02", ⟨[], "x", ""⟩), ("2024-05-01", ⟨["t"], "", ""⟩)]
      = (["2024-05-02"], ["2024-05-01"]) := by decide
example : (signUp st0 bodyS).2 = .ok 1 "Ann" "a@b.com" := by decide

/-! ## Helper lemmas -/

theorem strLenPos_iff (s : String) :
    (decide (s.length > 0) = true) ↔ s ≠ "" := by
  rw [decide_eq_true_iff]
  constructor
  · intro h he
    subst he
    exact absurd h (by decide)
  · intro h
    cases s with
    | mk l =>
      cases l with
      | nil => exact absurd rfl h
      | cons c t => simp [String.length]

theorem dw_idem (l : List Char) :
    (l.dropWhile jsWs).dropWhile jsWs = l.dropWhile jsWs := by
  induction l with
  | nil => rfl
  | cons a t ih =>
    by_cases h : jsWs a
    · simp [List.dropWhile_cons, h, ih]
    · simp [List.dropWhile_cons, h]

theorem trimRight_idem (l : List Char) :
    trimRight (trimRight l) = trimRight l := by
  unfold trimRight
  rw [List.reverse_reverse, dw_idem]

theorem dw_fix_head {a : Char} {l : List Char}
    (h : (a :: l).dropWhile jsWs = a :: l) : jsWs a = false := by
  by_cases hc : jsWs a
  · rw [List.dropWhile_cons_of_pos hc] at h
    have hlen := congrArg List.length h
    have hle := (List.dropWhile_sublist (l := l) jsWs).length_le
    simp at hlen
    omega
  · simpa using hc

theorem isEmpty_reverse_eq (l : List Char) :
    l.reverse.isEmpty = l.isEmpty := by
  cases l <;> simp

theorem trimRight_cons (a : Char) (l : List Char) :
    trimRight (a :: l)
      = if jsWs a && (trimRight l).isEmpty then [] else a :: trimRight l := by
  unfold trimRight
  rw [show a :: l = [a] ++ l from rfl, List.reverse_append,
    List.dropWhile_append, isEmpty_reverse_eq]
  by_cases h : (l.reverse.dropWhile jsWs).isEmpty = true
  · have hnil : l.reverse.dropWhile jsWs = [] := List.isEmpty_iff.mp h
    by_cases ha : jsWs a = true
    · simp [h, ha, List.dropWhile_cons, hnil]
    · simp [h, ha, List.dropWhile_cons, hnil]
  · have h2 : (l.reverse.dropWhile jsWs).isEmpty = false :=
      Bool.eq_false_iff.mpr h
    simp [h2]

theorem dw_trimRight {l : List Char} (h : l.dropWhile jsWs = l) :
    (trimRight l).dropWhile jsWs = trimRight l := by
  cases l with
  | nil => rfl
  | cons a t =>
    have ha : jsWs a = false := dw_fix_head h
    rw [trimRight_cons, ha]
    simp [List.dropWhile_cons, ha]

theorem jsTrimData_idem (l : List Char) :
    jsTrimData (jsTrimData l) = jsTrimData l := by
  unfold jsTrimData
  rw [dw_trimRight (dw_idem l), trimRight_idem]

theorem jsTrim_idem (s : String) : jsTrim (jsTrim s) = jsTrim s := by
  show (⟨jsTrimData (⟨jsTrimData s.data⟩ : String).data⟩ : String) = _
  rw [show (⟨jsTrimData s.data⟩ : String).data = jsTrimData s.data from rfl,
    jsTrimData_idem]
  rfl

/-- Every element produced by `normalizeTodo` is a trimmed, non-empty
string. -/
theorem normalizeTodo_mem (v : JSVal) :
    ∀ t ∈ normalizeTodo v, jsTrim t = t ∧ t ≠ "" := by
  intro t ht
  cases v with
  | arr xs =>
    rw [normalizeTodo, List.mem_filter] at ht
    obtain ⟨hmem, hlen⟩ := ht
    rw [List.mem_map] at hmem
    obtain ⟨x, _, hfx⟩ := hmem
    have hne : t ≠ "" := (strLenPos_iff t).mp hlen
    refine ⟨?_, hne⟩
    cases x with
    | str s =>
      simp only at hfx
      rw [← hfx]
      exact jsTrim_idem s
    | undef => exact absurd hfx.symm hne
    | null => exact absurd hfx.symm hne
    | bool b => exact absurd hfx.symm hne
    | num n => exact absurd hfx.symm hne
    | arr ys => exact absurd hfx.symm hne
  | str s =>
    rw [normalizeTodo, List.mem_filter] at ht
    obtain ⟨hmem, hlen⟩ := ht
    rw [List.mem_map] at hmem
    obtain ⟨piece, _, hfx⟩ := hmem
    have hne : t ≠ "" := (strLenPos_iff t).mp hlen
    refine ⟨?_, hne⟩
    rw [← hfx]
    exact jsTrim_idem piece
  | undef => cases ht
  | null => cases ht
  | bool b => cases ht
  | num n => cases ht

theorem alGet_alSet_self {β : Type} (l : List (String × β)) (k : String)
    (v : β) : alGet (alSet l k v) k = some v := by
  induction l with
  | nil => simp [alSet, alGet]
  | cons q rest ih =>
    by_cases h : q.1 = k
    · simp [alSet, h, alGet]
    · simp [alSet, h, alGet, ih]

theorem alGet_alSet_ne {β : Type} (l : List (String × β)) {k q : String}
    (v : β) (h : q ≠ k) : alGet (alSet l k v) q = alGet l q := by
  have hkq : ¬ k = q := fun he => h he.symm
  induction l with
  | nil => simp [alSet, alGet, hkq]
  | cons w rest ih =>
    by_cases hw : w.1 = k
    · simp [alSet, hw, alGet, hkq]
    · simp only [alSet, if_neg hw, alGet]
      by_cases hq : w.1 = q
      · simp [hq]
      · simp [hq, ih]

theorem alSet_get_self {β : Type} {l : List (String × β)} {k : String}
    {v : β} (h : alGet l k = some v) : alSet l k v = l := by
  induction l with
  | nil => simp [alGet] at h
  | cons q rest ih =>
    by_cases hq : q.1 = k
    · simp only [alGet, if_pos hq] at h
      have hv : q.2 = v := Option.some.inj h
      simp only [alSet, if_pos hq]
      rw [← hq, ← hv]
    · simp only [alGet, if_neg hq] at h
      simp only [alSet, if_neg hq, ih h]

theorem alGet_mem {β : Type} {l : List (String × β)} {k : String} {v : β}
    (h : alGet l k = some v) : (k, v) ∈ l := by
  induction l with
  | nil => simp [alGet] at h
  | cons q rest ih =>
    by_cases hq : q.1 = k
    · simp only [alGet, if_pos hq] at h
      have hv : q.2 = v := Option.some.inj h
      rw [← hq, ← hv]
      exact List.mem_cons_self q rest
    · simp only [alGet, if_neg hq] at h
      exact List.mem_cons_of_mem q (ih h)

theorem mem_alSet {β : Type} {l : List (String × β)} {k : String} {v : β}
    {q : String × β} (h : q ∈ alSet l k v) : q = (k, v) ∨ q ∈ l := by
  induction l with
  | nil =>
    simp only [alSet] at h
    exact Or.inl (List.mem_singleton.mp h)
  | cons w rest ih =>
    simp only [alSet] at h
    by_cases hw : w.1 = k
    · rw [if_pos hw] at h
      rcases List.mem_cons.mp h with he | ht
      · exact Or.inl he
      · exact Or.inr (List.mem_cons_of_mem w ht)
    · rw [if_neg hw] at h
      rcases List.mem_cons.mp h with he | ht
      · exact Or.inr (List.mem_cons.mpr (Or.inl he))
      · rcases ih ht with hl | hr
        · exact Or.inl hl
        · exact Or.inr (List.mem_cons_of_mem w hr)

/-- With pairwise distinct keys, a key determines its value. -/
theorem nodupKeys_val {β : Type} {l : List (String × β)}
    (h : (l.map Prod.fst).Nodup) {k : String} {a b : β}
    (ha : (k, a) ∈ l) (hb : (k, b) ∈ l) : a = b := by
  induction l with
  | nil => cases ha
  | cons w rest ih =>
    rw [List.map_cons, List.nodup_cons] at h
    rcases List.mem_cons.mp ha with hea | hta
    · rcases List.mem_cons.mp hb with heb | htb
      · rw [← hea] at heb
        exact (Prod.mk.injEq _ _ _ _ ▸ heb).2.symm
      · exfalso
        apply h.1
        rw [← hea]
        exact List.mem_map.mpr ⟨(k, b), htb, rfl⟩
    · rcases List.mem_cons.mp hb with heb | htb
      · exfalso
        apply h.1
        rw [← heb]
        exact List.mem_map.mpr ⟨(k, a), hta, rfl⟩
      · exact ih h.2 hta htb

theorem isValidStringS_iff (s : String) :
    isValidStringS s = true ↔ jsTrim s ≠ "" :=
  strLenPos_iff (jsTrim s)

theorem normTextField_trimmed (v : JSVal) :
    jsTrim (normTextField v) = normTextField v := by
  cases v with
  | str s =>
    by_cases h : isValidStringS s = true
    · simp [normTextField, isValidString, h, jsvalTrim, jsTrim_idem]
    · have he : normTextField (.str s) = "" := by
        simp [normTextField, isValidString, Bool.eq_false_iff.mpr h]
      rw [he]
      rfl
  | undef => rfl
  | null => rfl
  | bool b => rfl
  | num n => rfl
  | arr xs => rfl

theorem wfEntry_empty : wfEntry emptyEntry :=
  ⟨rfl, rfl, fun t ht => absurd ht (List.not_mem_nil t)⟩

theorem wfEntry_replace (b : DiaryBody) : wfEntry (mkEntryReplace b) :=
  ⟨normTextField_trimmed b.contents, normTextField_trimmed b.thanks,
   normalizeTodo_mem b.todo⟩

theorem wfEntry_merge {prev : Entry} (hw : wfEntry prev) (b : DiaryBody) :
    wfEntry (mergeEntry prev b) := by
  refine ⟨?_, ?_, ?_⟩
  · by_cases h : isUndef b.contents = true
    · simp [mergeEntry, h, hw.1]
    · simp [mergeEntry, Bool.eq_false_iff.mpr h, normTextField_trimmed]
  · by_cases h : isUndef b.thanks = true
    · simp [mergeEntry, h, hw.2.1]
    · simp [mergeEntry, Bool.eq_false_iff.mpr h, normTextField_trimmed]
  · by_cases h : isUndef b.todo = true
    · simp only [mergeEntry, h, if_true]
      exact hw.2.2
    · simp only [mergeEntry, Bool.eq_false_iff.mpr h, Bool.false_eq_true,
        if_false]
      exact normalizeTodo_mem b.todo

theorem map_filter_filterMap {α : Type} (f : α → String) (l : List α) :
    (l.map f).filter (fun s => decide (s.length > 0))
      = l.filterMap (fun a => if f a = "" then none else some (f a)) := by
  induction l with
  | nil => rfl
  | cons a t ih =>
    rw [List.map_cons, List.filter_cons, List.filterMap_cons]
    by_cases h : f a = ""
    · have hd : (decide ((f a).length > 0)) = false := by
        rw [h]
        rfl
      simp [hd, h, ih]
    · have hd : (decide ((f a).length > 0)) = true :=
        (strLenPos_iff (f a)).mpr h
      simp [hd, h, ih]

theorem signUp_conflict (st : AppState) (b : SignUpBody)
    (hv : (isValidString b.email && isValidString b.name &&
      isValidString b.password) = true)
    (hh : alHas st.membersByEmail (emailKeyOf (asString b.email)) = true) :
    signUp st b = (st, .emailExists) := by
  simp [signUp, hv, hh]

theorem normTextField_nonstr {v : JSVal} (h : ∀ s, v ≠ .str s) :
    normTextField v = "" := by
  cases v with
  | str s => exact absurd rfl (h s)
  | undef => rfl
  | null => rfl
  | bool b => rfl
  | num n => rfl
  | arr xs => rfl

/-! ## Claim theorems -/

/-- C4: the date normalizer returns the trimmed input exactly when the
input is a string whose trimmed form matches `^\d{4}-\d{2}-\d{2}$`
(no calendar-validity check, so `2024-13-99` is accepted), and the
invalid sentinel (`none`, JS `null`) for any other string and for any
non-string input. -/
theorem normalizeDate_spec :
    (∀ s : String, datePat (jsTrim s) = true →
        normalizeDate (.str s) = some (jsTrim s))
    ∧ (∀ s : String, datePat (jsTrim s) = false →
        normalizeDate (.str s) = none)
    ∧ (∀ v : JSVal, (∀ s, v ≠ .str s) → normalizeDate v = none)
    ∧ normalizeDate (.str "2024-13-99") = some "2024-13-99" := by
  refine ⟨?_, ?_, ?_, by decide⟩
  · intro s h
    have hne : jsTrim s ≠ "" := by
      intro he
      rw [he] at h
      exact absurd h (by decide)
    have hvs : isValidStringS s = true := (isValidStringS_iff s).mpr hne
    simp [normalizeDate, isValidString, hvs, h]
  · intro s h
    by_cases hvs : isValidStringS s = true
    · simp [normalizeDate, isValidString, hvs, h]
    · simp [normalizeDate, isValidString, Bool.eq_false_iff.mpr hvs]
  · intro v hv
    cases v with
    | str s => exact absurd rfl (hv s)
    | undef => rfl
    | null => rfl
    | bool b => rfl
    | num n => rfl
    | arr xs => rfl

/-- Witness for C4 at concrete inputs: a padded valid date, a
wrong-length string, and a number. -/
theorem normalizeDate_spec_witness :
    normalizeDate (.str " 2024-05-01 ") = some "2024-05-01"
    ∧ normalizeDate (.str "24-05-01") = none
    ∧ normalizeDate (.num 5) = none :=
  ⟨(normalizeDate_spec.1 " 2024-05-01 " (by decide)).trans (by decide),
   normalizeDate_spec.2.1 "24-05-01" (by decide),
   normalizeDate_spec.2.2.1 (.num 5) (fun _ hs => JSVal.noConfusion hs)⟩

/-- C5: the todo normalizer keeps the string-typed elements of an array
trimmed with empties dropped in order; splits a string on commas,
trimming and dropping empties in order; and yields `[]` on every other
input type.  (It is a total function, so it never raises.) -/
theorem normalizeTodo_spec :
    (∀ xs : List JSVal,
        normalizeTodo (.arr xs)
          = xs.filterMap (fun x =>
              match x with
              | .str s => if jsTrim s = "" then none else some (jsTrim s)
              | _ => none))
    ∧ (∀ s : String,
        normalizeTodo (.str s)
          = (jsSplitComma s).filterMap (fun piece =>
              if jsTrim piece = "" then none else some (jsTrim piece)))
    ∧ (∀ v : JSVal, (∀ s, v ≠ .str s) → (∀ xs, v ≠ .arr xs) →
        normalizeTodo v = []) := by
  refine ⟨?_, ?_, ?_⟩
  · intro xs
    rw [normalizeTodo,
      map_filter_filterMap (fun x =>
        match x with | JSVal.str s => jsTrim s | _ => "") xs]
    congr 1
    funext x
    cases x with
    | str s => rfl
    | undef => simp
    | null => simp
    | bool b => simp
    | num n => simp
    | arr ys => simp
  · intro s
    rw [normalizeTodo, map_filter_filterMap jsTrim (jsSplitComma s)]
  · intro v hs hxs
    cases v with
    | str s => exact absurd rfl (hs s)
    | arr xs => exact absurd rfl (hxs xs)
    | undef => rfl
    | null => rfl
    | bool b => rfl
    | num n => rfl

/-- Witness for C5: a non-string, non-array input yields `[]`. -/
theorem normalizeTodo_spec_witness :
    normalizeTodo (.bool true) = [] :=
  normalizeTodo_spec.2.2 (.bool true) (fun _ hs => JSVal.noConfusion hs)
    (fun _ hxs => JSVal.noConfusion hxs)

/-- C6: the todo normalizer is idempotent — renormalizing its own
output (as an array of strings) returns the same list. -/
theorem normalizeTodo_idem (v : JSVal) :
    normalizeTodo (.arr ((normalizeTodo v).map JSVal.str))
      = normalizeTodo v := by
  have hmem := normalizeTodo_mem v
  rw [normalizeTodo, List.map_map]
  have h1 : (normalizeTodo v).map
      ((fun x => match x with | JSVal.str s => jsTrim s | _ => "")
        ∘ JSVal.str) = normalizeTodo v := by
    rw [show ((fun x => match x with | JSVal.str s => jsTrim s | _ => "")
        ∘ JSVal.str) = fun s => jsTrim s from rfl]
    rw [List.map_congr_left (fun a ha => (hmem a ha).1)]
    exact List.map_id _
  rw [h1]
  rw [List.filter_eq_self.mpr]
  intro a ha
  exact (strLenPos_iff a).mpr (hmem a ha).2

/-- C1: Upsert-Replace (`POST /diary/:date`) then Read
(`GET /diary/:date`) on the same date returns exactly the normalized
triple just written: `TodoNormalizer(todo)`, the trimmed contents if it
is a string with non-whitespace characters (else `""`), and likewise
for thanks. -/
theorem postThenGet (st : AppState) (p d : String) (b : DiaryBody)
    (hd : normalizeDate (.str p) = some d) :
    getDiary (postDiary st p b).1 p
      = ((postDiary st p b).1,
         .ok ⟨normalizeTodo b.todo, normTextField b.contents,
              normTextField b.thanks⟩) := by
  simp only [postDiary, hd, getDiary]
  rw [alGet_alSet_self]
  rfl

/-- Witness for C1: the spec scenario
`POST /diary/2024-05-01 {todo:"a, b ,,c", contents:" hi ", thanks:""}`
then `GET /diary/2024-05-01`. -/
theorem postThenGet_witness :
    getDiary (postDiary st0 "2024-05-01" bodyA).1 "2024-05-01"
      = ((postDiary st0 "2024-05-01" bodyA).1,
         .ok ⟨normalizeTodo bodyA.todo, normTextField bodyA.contents,
              normTextField bodyA.thanks⟩) :=
  postThenGet st0 "2024-05-01" "2024-05-01" bodyA (by decide)

/-- C2: Upsert-Merge (`PUT /diary/:date`) merges per field: the stored
result is `mergeEntry` of the existing entry (or the empty default) and
the raw body, each provided field normalized as in Upsert-Replace and
each absent field kept; a merge with all fields absent on an existing
date leaves the whole state unchanged; a merge providing only
`contents` preserves the prior todo list and thanks; other dates are
untouched. -/
theorem putMerge (st : AppState) (p d : String) (b : DiaryBody)
    (hd : normalizeDate (.str p) = some d) :
    alGet (putDiary st p b).1.diaryByDate d
        = some (mergeEntry ((alGet st.diaryByDate d).getD emptyEntry) b)
    ∧ (isUndef b.todo = true → isUndef b.contents = true →
        isUndef b.thanks = true →
        ∀ e, alGet st.diaryByDate d = some e → (putDiary st p b).1 = st)
    ∧ (isUndef b.todo = true → isUndef b.contents = false →
        isUndef b.thanks = true →
        alGet (putDiary st p b).1.diaryByDate d
          = some ⟨((alGet st.diaryByDate d).getD emptyEntry).todo,
                  normTextField b.contents,
                  ((alGet st.diaryByDate d).getD emptyEntry).thanks⟩)
    ∧ (∀ q, q ≠ d → alGet (putDiary st p b).1.diaryByDate q
        = alGet st.diaryByDate q) := by
  refine ⟨?_, ?_, ?_, ?_⟩
  · simp only [putDiary, hd]
    exact alGet_alSet_self _ _ _
  · intro ht hc hth e he
    have hm : mergeEntry ((alGet st.diaryByDate d).getD emptyEntry) b
        = e := by
      simp [mergeEntry, ht, hc, hth, he]
    simp only [putDiary, hd, hm, alSet_get_self he]
  · intro ht hc hth
    have hm : mergeEntry ((alGet st.diaryByDate d).getD emptyEntry) b
        = ⟨((alGet st.diaryByDate d).getD emptyEntry).todo,
           normTextField b.contents,
           ((alGet st.diaryByDate d).getD emptyEntry).thanks⟩ := by
      simp [mergeEntry, ht, hc, hth]
    simp only [putDiary, hd]
    rw [alGet_alSet_self, hm]
  · intro q hq
    simp only [putDiary, hd]
    exact alGet_alSet_ne _ _ hq

/-- Witness for C2 on the one-entry state `stA`: an all-absent merge is
a no-op, and a contents-only merge keeps the prior todo and thanks. -/
theorem putMerge_witness :
    (putDiary stA "2024-05-01" bodyU).1 = stA
    ∧ alGet (putDiary stA "2024-05-01" bodyC).1.diaryByDate "2024-05-01"
        = some ⟨((alGet stA.diaryByDate "2024-05-01").getD emptyEntry).todo,
                normTextField bodyC.contents,
                ((alGet stA.diaryByDate "2024-05-01").getD
                  emptyEntry).thanks⟩ :=
  ⟨(putMerge stA "2024-05-01" "2024-05-01" bodyU (by decide)).2.1 rfl rfl rfl
      ⟨["a"], "hi", "t"⟩ (by decide),
   (putMerge stA "2024-05-01" "2024-05-01" bodyC
      (by decide)).2.2.1 rfl rfl rfl⟩

/-- C10: Read (`GET /diary/:date`) never modifies any state, and a
valid date with no stored entry yields the empty default entry without
creating one. -/
theorem getDiary_pure (st : AppState) (p : String) :
    (getDiary st p).1 = st
    ∧ (∀ d, normalizeDate (.str p) = some d →
        alGet st.diaryByDate d = none →
        (getDiary st p).2 = .ok emptyEntry) := by
  constructor
  · cases hnd : normalizeDate (.str p) <;> simp [getDiary, hnd]
  · intro d hd hnone
    simp [getDiary, hd, hnone]

/-- Witness for C10: reading `1999-12-31` from the untouched initial
state. -/
theorem getDiary_pure_witness :
    (getDiary st0 "1999-12-31").1 = st0
    ∧ (getDiary st0 "1999-12-31").2 = .ok emptyEntry :=
  ⟨(getDiary_pure st0 "1999-12-31").1,
   (getDiary_pure st0 "1999-12-31").2 "1999-12-31" (by decide) (by decide)⟩

/-- C8: every request rejected for validation or conflict reasons
returns the error response with the state (all three stores, the next
member id and the login map) completely unchanged. -/
theorem rejectNoMutation :
    (∀ (st : AppState) (p : String) (b : DiaryBody),
        normalizeDate (.str p) = none →
        postDiary st p b = (st, .invalidDate))
    ∧ (∀ (st : AppState) (p : String),
        normalizeDate (.str p) = none →
        getDiary st p = (st, .invalidDate))
    ∧ (∀ (st : AppState) (p : String) (b : DiaryBody),
        normalizeDate (.str p) = none →
        putDiary st p b = (st, .invalidDate))
    ∧ (∀ (st : AppState) (b : SignUpBody),
        (isValidString b.email && isValidString b.name &&
          isValidString b.password) = false →
        signUp st b = (st, .missingFields))
    ∧ (∀ (st : AppState) (b : SignUpBody),
        (isValidString b.email && isValidString b.name &&
          isValidString b.password) = true →
        alHas st.membersByEmail (emailKeyOf (asString b.email)) = true →
        signUp st b = (st, .emailExists)) := by
  refine ⟨?_, ?_, ?_, ?_, ?_⟩
  · intro st p b h
    simp [postDiary, h]
  · intro st p h
    simp [getDiary, h]
  · intro st p b h
    simp [putDiary, h]
  · intro st b h
    simp [signUp, h]
  · intro st b h hh
    exact signUp_conflict st b h hh

/-- Witness for C8: an invalid date on each diary route, a sign-up with
an empty field, and a duplicate sign-up. -/
theorem rejectNoMutation_witness :
    postDiary stA "not-a-date" bodyA = (stA, .invalidDate)
    ∧ getDiary stA "not-a-date" = (stA, .invalidDate)
    ∧ putDiary stA "not-a-date" bodyA = (stA, .invalidDate)
    ∧ signUp stSigned ⟨.str "x@y.z", .str " ", .str "p"⟩
        = (stSigned, .missingFields)
    ∧ signUp stSigned ⟨.str " A@b.Com", .str "n", .str "p"⟩
        = (stSigned, .emailExists) :=
  ⟨rejectNoMutation.1 stA "not-a-date" bodyA (by decide),
   rejectNoMutation.2.1 stA "not-a-date" (by decide),
   rejectNoMutation.2.2.1 stA "not-a-date" bodyA (by decide),
   rejectNoMutation.2.2.2.1 stSigned ⟨.str "x@y.z", .str " ", .str "p"⟩
     (by decide),
   rejectNoMutation.2.2.2.2 stSigned ⟨.str " A@b.Com", .str "n", .str "p"⟩
     (by decide) (by decide)⟩

/-- C9: Register (`POST /SignUp`) with non-empty string fields rejects
with a conflict exactly when the lowercase-trimmed email key is already
present (so a second registration of the same email in different case
conflicts), and otherwise stores a record with the fresh
auto-incremented id under the email key and sets the login state of
that key to 0 (logged out). -/
theorem signUp_spec (st : AppState) (b : SignUpBody)
    (hv : (isValidString b.email && isValidString b.name &&
      isValidString b.password) = true) :
    (alHas st.membersByEmail (emailKeyOf (asString b.email)) = true →
      signUp st b = (st, .emailExists))
    ∧ (alHas st.membersByEmail (emailKeyOf (asString b.email)) = false →
      signUp st b
        = ({ nextMemberId := st.nextMemberId + 1
             membersByEmail := alSet st.membersByEmail
               (emailKeyOf (asString b.email))
               ⟨st.nextMemberId, jsTrim (asString b.name),
                emailKeyOf (asString b.email), asString b.password⟩
             loginState :=
               alSet st.loginState (emailKeyOf (asString b.email)) 0
             diaryByDate := st.diaryByDate },
           .ok st.nextMemberId (jsTrim (asString b.name))
             (emailKeyOf (asString b.email)))
      ∧ alGet (signUp st b).1.loginState (emailKeyOf (asString b.email))
          = some 0
      ∧ (∀ b2 : SignUpBody,
          (isValidString b2.email && isValidString b2.name &&
            isValidString b2.password) = true →
          emailKeyOf (asString b2.email) = emailKeyOf (asString b.email) →
          (signUp (signUp st b).1 b2).2 = .emailExists)) := by
  constructor
  · intro hh
    simp [signUp, hv, hh]
  · intro hh
    have hstep : signUp st b
        = ({ nextMemberId := st.nextMemberId + 1
             membersByEmail := alSet st.membersByEmail
               (emailKeyOf (asString b.email))
               ⟨st.nextMemberId, jsTrim (asString b.name),
                emailKeyOf (asString b.email), asString b.password⟩
             loginState :=
               alSet st.loginState (emailKeyOf (asString b.email)) 0
             diaryByDate := st.diaryByDate },
           .ok st.nextMemberId (jsTrim (asString b.name))
             (emailKeyOf (asString b.email))) := by
      simp [signUp, hv, hh]
    refine ⟨hstep, ?_, ?_⟩
    · rw [hstep]
      exact alGet_alSet_self _ _ _
    · intro b2 hv2 hkey
      have hh2 : alHas (signUp st b).1.membersByEmail
          (emailKeyOf (asString b2.email)) = true := by
        rw [hstep, hkey]
        show (alGet (alSet st.membersByEmail _ _) _).isSome = true
        rw [alGet_alSet_self]
        rfl
      rw [signUp_conflict (signUp st b).1 b2 hv2 hh2]

/-- Witness for C9: registering `A@B.com ` into the empty state and
then `a@b.COM` — the second call conflicts. -/
theorem signUp_spec_witness :
    (signUp (signUp st0 bodyS).1 bodyS2).2 = SignUpResp.emailExists :=
  ((signUp_spec st0 bodyS (by decide)).2 (by decide)).2.2 bodyS2
    (by decide) (by decide)

/-- C7: every entry stored by the handlers has all three fields present
with their proper types (enforced by the `Entry` type of the model) and
normalized: absent or non-string raw text input is stored as `""`,
non-array non-string todo input as `[]`, and the invariant `wfEntry` of
all stored entries is preserved by every Upsert-Replace and every
Upsert-Merge. -/
theorem storedEntriesWf :
    (∀ b : DiaryBody, wfEntry (mkEntryReplace b))
    ∧ (∀ b : DiaryBody, (∀ s, b.contents ≠ .str s) →
        (mkEntryReplace b).contents = "")
    ∧ (∀ b : DiaryBody, (∀ s, b.thanks ≠ .str s) →
        (mkEntryReplace b).thanks = "")
    ∧ (∀ b : DiaryBody, (∀ s, b.todo ≠ .str s) →
        (∀ xs, b.todo ≠ .arr xs) → (mkEntryReplace b).todo = [])
    ∧ (∀ (st : AppState) (p : String) (b : DiaryBody),
        (∀ q ∈ st.diaryByDate, wfEntry q.2) →
        ∀ q ∈ (postDiary st p b).1.diaryByDate, wfEntry q.2)
    ∧ (∀ (st : AppState) (p : String) (b : DiaryBody),
        (∀ q ∈ st.diaryByDate, wfEntry q.2) →
        ∀ q ∈ (putDiary st p b).1.diaryByDate, wfEntry q.2) := by
  refine ⟨wfEntry_replace, ?_, ?_, ?_, ?_, ?_⟩
  · intro b h
    exact normTextField_nonstr h
  · intro b h
    exact normTextField_nonstr h
  · intro b hs hxs
    show normalizeTodo b.todo = []
    cases hb : b.todo with
    | str s => exact absurd hb (hs s)
    | arr xs => exact absurd hb (hxs xs)
    | undef => rfl
    | null => rfl
    | bool c => rfl
    | num n => rfl
  · intro st p b hwf q hq
    cases hnd : normalizeDate (.str p) with
    | none =>
      simp only [postDiary, hnd] at hq
      exact hwf q hq
    | some date =>
      simp only [postDiary, hnd] at hq
      rcases mem_alSet hq with he | hm
      · rw [he]
        exact wfEntry_replace b
      · exact hwf q hm
  · intro st p b hwf q hq
    cases hnd : normalizeDate (.str p) with
    | none =>
      simp only [putDiary, hnd] at hq
      exact hwf q hq
    | some date =>
      simp only [putDiary, hnd] at hq
      rcases mem_alSet hq with he | hm
      · rw [he]
        have hprev : wfEntry ((alGet st.diaryByDate date).getD emptyEntry) := by
          cases halg : alGet st.diaryByDate date with
          | none => exact wfEntry_empty
          | some e => exact hwf (date, e) (alGet_mem halg)
        exact wfEntry_merge hprev b
      · exact hwf q hm

/-- Witness for C7: non-string fields store as empty, and the invariant
holds after a concrete replace on the empty store and a concrete merge
on the one-entry store. -/
theorem storedEntriesWf_witness :
    (mkEntryReplace bodyN).contents = ""
    ∧ (mkEntryReplace bodyN).thanks = ""
    ∧ (mkEntryReplace bodyN).todo = []
    ∧ (∀ q ∈ (postDiary st0 "2024-05-01" bodyA).1.diaryByDate, wfEntry q.2)
    ∧ (∀ q ∈ (putDiary stA "2024-05-01" bodyC).1.diaryByDate,
        wfEntry q.2) :=
  ⟨storedEntriesWf.2.1 bodyN (fun _ h => JSVal.noConfusion h),
   storedEntriesWf.2.2.1 bodyN (fun _ h => JSVal.noConfusion h),
   storedEntriesWf.2.2.2.1 bodyN (fun _ h => JSVal.noConfusion h)
     (fun _ h => JSVal.noConfusion h),
   storedEntriesWf.2.2.2.2.1 st0 "2024-05-01" bodyA
     (fun q hq => absurd hq (List.not_mem_nil q)),
   storedEntriesWf.2.2.2.2.2 stA "2024-05-01" bodyC
     (by
       intro q hq
       have hq2 : q = ("2024-05-01", (⟨["a"], "hi", "t"⟩ : Entry)) := by
         simpa [stA] using hq
       subst hq2
       exact ⟨rfl, rfl, by decide⟩)⟩

/-- C3: Summarize (`GET /Home`) returns in `haveContents` exactly the
stored dates with non-empty contents and in `haveTodos` exactly those
with a non-empty todo list, both sorted ascending lexicographically;
a date whose entry has empty contents and an empty todo list appears in
neither list.  (The contents direction uses the invariant that stored
contents are trimmed, cf. C7; the key-uniqueness of a JS `Map` is the
`Nodup` hypothesis.) -/
theorem summarize_spec (diary : List (String × Entry))
    (hNorm : ∀ q ∈ diary, jsTrim q.2.contents = q.2.contents)
    (hKeys : (diary.map Prod.fst).Nodup) :
    List.Sorted (· ≤ ·) (getHaveArrays diary).1
    ∧ List.Sorted (· ≤ ·) (getHaveArrays diary).2
    ∧ (∀ d, d ∈ (getHaveArrays diary).1
        ↔ ∃ e, (d, e) ∈ diary ∧ e.contents ≠ "")
    ∧ (∀ d, d ∈ (getHaveArrays diary).2
        ↔ ∃ e, (d, e) ∈ diary ∧ e.todo ≠ [])
    ∧ (∀ d e, (d, e) ∈ diary → e.contents = "" → e.todo = [] →
        d ∉ (getHaveArrays diary).1 ∧ d ∉ (getHaveArrays diary).2) := by
  have hc_iff : ∀ d, d ∈ (getHaveArrays diary).1
      ↔ ∃ e, (d, e) ∈ diary ∧ e.contents ≠ "" := by
    intro d
    simp only [getHaveArrays]
    rw [List.mem_insertionSort]
    constructor
    · intro hmem
      rcases List.mem_map.mp hmem with ⟨q, hqf, hq1⟩
      rcases List.mem_filter.mp hqf with ⟨hqd, hpred⟩
      refine ⟨q.2, ?_, ?_⟩
      · rw [← hq1]
        exact hqd
      · have h1 := (isValidStringS_iff q.2.contents).mp hpred
        intro he
        apply h1
        rw [he]
        rfl
    · rintro ⟨e, he, hne⟩
      apply List.mem_map.mpr
      refine ⟨(d, e), List.mem_filter.mpr ⟨he, ?_⟩, rfl⟩
      apply (isValidStringS_iff e.contents).mpr
      rw [hNorm (d, e) he]
      exact hne
  have ht_iff : ∀ d, d ∈ (getHaveArrays diary).2
      ↔ ∃ e, (d, e) ∈ diary ∧ e.todo ≠ [] := by
    intro d
    simp only [getHaveArrays]
    rw [List.mem_insertionSort]
    constructor
    · intro hmem
      rcases List.mem_map.mp hmem with ⟨q, hqf, hq1⟩
      rcases List.mem_filter.mp hqf with ⟨hqd, hpred⟩
      refine ⟨q.2, ?_, ?_⟩
      · rw [← hq1]
        exact hqd
      · exact List.length_pos.mp (of_decide_eq_true hpred)
    · rintro ⟨e, he, hne⟩
      exact List.mem_map.mpr ⟨(d, e), List.mem_filter.mpr ⟨he,
        decide_eq_true (List.length_pos.mpr hne)⟩, rfl⟩
  refine ⟨?_, ?_, hc_iff, ht_iff, ?_⟩
  · simp only [getHaveArrays]
    exact List.sorted_insertionSort _ _
  · simp only [getHaveArrays]
    exact List.sorted_insertionSort _ _
  · intro d e he hce hte
    constructor
    · intro hd
      rcases (hc_iff d).mp hd with ⟨e2, he2, hne2⟩
      rw [nodupKeys_val hKeys he2 he] at hne2
      exact hne2 hce
    · intro hd
      rcases (ht_iff d).mp hd with ⟨e2, he2, hne2⟩
      rw [nodupKeys_val hKeys he2 he] at hne2
      exact hne2 hte

/-- Witness for C3 at the concrete three-entry store `dW`. -/
theorem summarize_spec_witness :
    List.Sorted (· ≤ ·) (getHaveArrays dW).1
    ∧ List.Sorted (· ≤ ·) (getHaveArrays dW).2
    ∧ (∀ d, d ∈ (getHaveArrays dW).1
        ↔ ∃ e, (d, e) ∈ dW ∧ e.contents ≠ "")
    ∧ (∀ d, d ∈ (getHaveArrays dW).2
        ↔ ∃ e, (d, e) ∈ dW ∧ e.todo ≠ [])
    ∧ (∀ d e, (d, e) ∈ dW → e.contents = "" → e.todo = [] →
        d ∉ (getHaveArrays dW).1 ∧ d ∉ (getHaveArrays dW).2) :=
  summarize_spec dW (by decide) (by decide)

end DiaryBackend
